import Mathlib

/-!
Shallow embedding of `src/mgos_rpc_channel_uart.c` (frame codec and channel
state machine of the UART RPC channel), together with proofs about the
claims on its behaviour.

Bytes are modelled as `Nat` values (the serial line carries octets, so all
concrete inputs use values below 256).  Byte buffers (`struct mbuf`) are
modelled as `List Nat`; `mbuf_append` is list append and `mbuf_remove n` is
`List.drop n` (prefix removal), per the mbuf interface.  `mbuf_trim` only
releases spare capacity and has no behavioural effect, so it is omitted.

External collaborators (not part of this repository) are modelled from
their documented interfaces and from the specification:
 * `cs_crc32(0, p, n)` is standard CRC-32 (IEEE 802.3, reflected polynomial
   0xEDB88320, init/final xor 0xFFFFFFFF), per the spec's wire format.
 * `c_strnstr(buf, delimiter, len)` is modelled from the spec as a forward
   scan for the first occurrence of the 3-byte delimiter (`findDelim`).
 * `sscanf(meta, hex-format, &v)` into an unsigned 32-bit value is modelled
   by `sscanf_hex`: skip leading whitespace, accept an optional plus or
   minus sign, then a strtoul base-16 subject — an optional 0x/0X prefix
   followed by the maximal run of hex digits (upper or lower case), where
   a 0x with no digit after it parses as just the digit 0, as strtoul
   does.  The conversion fails (the C call returns 0) iff no digit is
   parsed.  The value accumulates modulo 2^32, the width of the unsigned
   int destination (for hex runs longer than the unsigned long range the
   C result is platform-dependent — a 64-bit host truncates through the
   final cast, which is the behaviour taken here), and a minus sign
   negates modulo 2^32.
 * `mgos_uart_read_mbuf` delivers the available rx bytes; `mgos_uart_write`
   writes the requested length (it is already clamped to the advertised
   tx availability, which is the driver's non-blocking write bound).
 * Log calls are modelled as diagnostic events only where a claim needs
   them (the LL_ERROR oversize diagnostic).
-/

/-- FRAME_DELIMETER, the 3 bytes 0x22 0x22 0x22 (three double quotes). -/
def FRAME_DELIMETER : List Nat := [34, 34, 34]

/-- FRAME_DELIMETER_LEN from the source. -/
def FRAME_DELIMETER_LEN : Nat := 3

/-- EOF_CHAR, the handshake control byte 0x04. -/
def EOF_CHAR : Nat := 4

/-- One bit step of the reflected CRC-32 (polynomial 0xEDB88320). -/
def crc32_bit (c : Nat) : Nat :=
  if c % 2 = 1 then (c / 2) ^^^ 0xEDB88320 else c / 2

/-- One byte step of CRC-32: xor the byte into the low bits, then 8 bit steps. -/
def crc32_byte (c b : Nat) : Nat :=
  crc32_bit (crc32_bit (crc32_bit (crc32_bit
    (crc32_bit (crc32_bit (crc32_bit (crc32_bit (c ^^^ b % 256))))))))

/-- Model of the external `cs_crc32(seed, p, len)`: standard CRC-32 with the
usual pre/post complement, so `cs_crc32 0 data` is CRC-32 (IEEE) of `data`. -/
def cs_crc32 (seed : Nat) (data : List Nat) : Nat :=
  (data.foldl crc32_byte (seed ^^^ 0xFFFFFFFF)) ^^^ 0xFFFFFFFF

/-- Lowercase hex character of a nibble, as produced by `sprintf` with `%08x`. -/
def nibbleChar (d : Nat) : Nat :=
  if d < 10 then 48 + d else 87 + d

/-- The 8 lowercase hex digit bytes produced by `sprintf(crc_hex, len 8 hex format, crc)`. -/
def hex8 (n : Nat) : List Nat :=
  [nibbleChar (n / 16 ^ 7 % 16), nibbleChar (n / 16 ^ 6 % 16),
   nibbleChar (n / 16 ^ 5 % 16), nibbleChar (n / 16 ^ 4 % 16),
   nibbleChar (n / 16 ^ 3 % 16), nibbleChar (n / 16 ^ 2 % 16),
   nibbleChar (n / 16 % 16), nibbleChar (n % 16)]

/-- Value of one ASCII hex digit byte (0-9, a-f, A-F), if it is one. -/
def hexDigitVal (b : Nat) : Option Nat :=
  if 48 ≤ b ∧ b ≤ 57 then some (b - 48)
  else if 97 ≤ b ∧ b ≤ 102 then some (b - 87)
  else if 65 ≤ b ∧ b ≤ 70 then some (b - 55)
  else none

/-- Accumulate leading hex digits, wrapping modulo 2^32 (unsigned int target). -/
def sscanf_hex_aux : Nat → List Nat → Nat
  | acc, [] => acc
  | acc, b :: rest =>
    match hexDigitVal b with
    | some d => sscanf_hex_aux ((acc * 16 + d) % 2 ^ 32) rest
    | none => acc

/-- The maximal leading run of hex digits as a number: `none` iff the input
does not start with a hex digit, else the run's value modulo 2^32. -/
def sscanf_hex_digits (l : List Nat) : Option Nat :=
  match l with
  | [] => none
  | b :: _ => if (hexDigitVal b).isSome then some (sscanf_hex_aux 0 l) else none

/-- The bytes the hex conversion skips as leading whitespace: space, tab,
newline, vertical tab, form feed, carriage return. -/
def isSpaceByte (b : Nat) : Bool :=
  b = 32 || b = 9 || b = 10 || b = 11 || b = 12 || b = 13

/-- The strtoul base-16 subject after whitespace and sign: an optional
0x/0X prefix, then hex digits.  As in strtoul, a 0x that is not followed
by a hex digit is not taken as a prefix — the subject is then just the
digit 0 (value 0), with the x left unconsumed. -/
def sscanf_hex_body : List Nat → Option Nat
  | [] => none
  | [b] => sscanf_hex_digits [b]
  | b :: x :: rest =>
    if b = 48 ∧ (x = 120 ∨ x = 88) then
      some ((sscanf_hex_digits rest).getD 0)
    else sscanf_hex_digits (b :: x :: rest)

/-- The optional single plus or minus sign before the base-16 subject; a
minus sign negates the value in the unsigned 32-bit destination, i.e.
modulo 2^32. -/
def sscanf_hex_signed : List Nat → Option Nat
  | [] => none
  | b :: rest =>
    if b = 43 then sscanf_hex_body rest
    else if b = 45 then
      Option.map (fun v => (2 ^ 32 - v) % 2 ^ 32) (sscanf_hex_body rest)
    else sscanf_hex_body (b :: rest)

/-- Model of `sscanf` with a `%x` conversion into a 32-bit unsigned value:
skip leading whitespace, accept an optional plus or minus sign, then a
strtoul base-16 subject; fail (return `none`, i.e. the C call returns 0
conversions) iff no hex digit is parsed. -/
def sscanf_hex (l : List Nat) : Option Nat :=
  sscanf_hex_signed (l.dropWhile isSpaceByte)

/-- Does the list start with the 3-byte frame delimiter? -/
def startsWithDelim (l : List Nat) : Bool :=
  l.take 3 = FRAME_DELIMETER

/-- Model (from the spec) of `c_strnstr(buf, FRAME_DELIMETER, len)`: index of
the first occurrence of the 3-byte delimiter wholly inside `l`, if any. -/
def findDelim : List Nat → Option Nat
  | [] => none
  | b :: rest =>
    if startsWithDelim (b :: rest) then some 0
    else (findDelim rest).map (· + 1)

/-- The backward metadata scan of the dispatcher (lines 107-113): starting
from the end of the frame, move left while the byte before the scan point is
not a closing brace 0x7d; the scanned suffix is the metadata `meta`, the
rest (whose length is the final `f.len`) is the message. -/
def splitMeta (f : List Nat) : List Nat × List Nat :=
  let meta := (f.reverse.takeWhile (fun b => b != 125)).reverse
  (f.take (f.length - meta.length), meta)

/-- The message span `f` (pointer plus mutated length) right before the
`f.len > 0` delivery test (dispatcher lines 107-127): the backward scan has
shortened `f.len` to the message part; when the metadata is at least 8
bytes, `sscanf` parse failure or a CRC-32 mismatch forces `f.len = 0`.
The NUL byte the code writes at `meta.p[meta.len]` before calling `sscanf`
only terminates the parse at the metadata's end (modelled by `sscanf_hex`
receiving exactly the metadata bytes); it stomps the first byte of the
closing delimiter, which the loop removes right afterwards, so it has no
further observable effect. -/
def frameMsg2 (f : List Nat) : List Nat :=
  if 8 ≤ (splitMeta f).2.length then
    match sscanf_hex (splitMeta f).2 with
    | some v => if v = cs_crc32 0 (splitMeta f).1 then (splitMeta f).1 else []
    | none => []
  else (splitMeta f).1

/-- Handling of one non-handshake frame payload (dispatcher lines 100-130):
split off the metadata; if it is at least 8 bytes, parse it with `sscanf`
and compare with CRC-32 of the message, zeroing the message on parse failure
or mismatch; deliver the message iff it is non-empty.  Returns the delivered
message span, or `none` when no frame-received event is raised. -/
def processDataFrame (f : List Nat) : Option (List Nat) :=
  if 0 < (frameMsg2 f).length then some (frameMsg2 f) else none

/-- The outgoing data-frame encoding of `mg_rpc_channel_uart_send_frame`
(lines 181-186): delimiter, payload, 8 lowercase hex digits of CRC-32 of the
payload, delimiter. -/
def encode_frame (f : List Nat) : List Nat :=
  FRAME_DELIMETER ++ f ++ hex8 (cs_crc32 0 f) ++ FRAME_DELIMETER

/-- The channel state, `struct mg_rpc_channel_uart_data`: the six flag bits
and the two byte buffers.  `console_uart` models the environment condition
`mgos_get_stdout_uart() == uart_no || mgos_get_stderr_uart() == uart_no`
queried by `send_frame` (fixed per channel here, as the configuration is). -/
structure ChannelState where
  wait_for_start_frame : Bool
  waiting_for_start_frame : Bool
  connected : Bool
  sending : Bool
  sending_user_frame : Bool
  resume_uart : Bool
  recv_mbuf : List Nat
  send_mbuf : List Nat
  console_uart : Bool
deriving DecidableEq, Repr

/-- Observable interactions of the channel: the four `mg_rpc` lifecycle
events raised through `ch->ev_handler`, the LL_ERROR oversize diagnostic,
and the `mgos_debug_resume_uart()` call. -/
inductive Event where
  | openEv
  | closedEv
  | frameRecd (msg : List Nat)
  | frameSent
  | errorDiag
  | resumeUart
deriving DecidableEq, Repr

/-- Handling of one extracted non-empty frame payload inside the dispatcher
loop (lines 82-131): a lone EOF_CHAR is the handshake (clear the waiting
flag, raise OPEN on the false-to-true connected transition, queue a
handshake reply frame and set `sending`); anything else is a data frame. -/
def handleFrame (s : ChannelState) (f : List Nat) : ChannelState × List Event :=
  if f = [EOF_CHAR] then
    let s1 := { s with waiting_for_start_frame := false }
    let r := if s1.connected = false then
        ({ s1 with connected := true }, [Event.openEv])
      else (s1, ([] : List Event))
    ({ r.1 with
        send_mbuf := r.1.send_mbuf ++ FRAME_DELIMETER ++ [EOF_CHAR] ++ FRAME_DELIMETER,
        sending := true }, r.2)
  else
    match processDataFrame f with
    | some msg => (s, [Event.frameRecd msg])
    | none => (s, [])

/-- Prepend events raised by the current loop iteration to the result of the
rest of the loop. -/
def withEvents (evs : List Event) (r : ChannelState × List Nat × List Event) :
    ChannelState × List Nat × List Event :=
  (r.1, r.2.1, evs ++ r.2.2)

/-- The frame extraction loop of the dispatcher (lines 79-134), with explicit
fuel so the definition computes by structural recursion.  Each iteration
consumes at least the 3 delimiter bytes, so `buf.length` fuel always
suffices (see `extractLoop`).  Returns (state, remaining buffer, events). -/
def extractLoopFuel : Nat → ChannelState → List Nat → ChannelState × List Nat × List Event
  | 0, s, buf => (s, buf, [])
  | fuel + 1, s, buf =>
    match findDelim buf with
    | none => (s, buf, [])
    | some k =>
      let fe := if k = 0 then (s, ([] : List Event)) else handleFrame s (buf.take k)
      withEvents fe.2 (extractLoopFuel fuel fe.1 (buf.drop (k + FRAME_DELIMETER_LEN)))

/-- The frame extraction loop, with sufficient fuel. -/
def extractLoop (s : ChannelState) (buf : List Nat) : ChannelState × List Nat × List Event :=
  extractLoopFuel buf.length s buf

/-- The receive half of the dispatcher (lines 72-144): if rx bytes are
available, append them to the receive buffer, run the extraction loop,
drop the whole buffer with an LL_ERROR diagnostic when it still exceeds
`max_frame_size + 2 * FRAME_DELIMETER_LEN`, and, while still waiting for
the start frame, keep only the last `FRAME_DELIMETER_LEN` bytes. -/
def dispatchRx (s : ChannelState) (rx : List Nat) (max_frame_size : Nat) :
    ChannelState × List Event :=
  if 0 < rx.length then
    let r := extractLoop s (s.recv_mbuf ++ rx)
    let over :=
      if max_frame_size + 2 * FRAME_DELIMETER_LEN < r.2.1.length then
        (([] : List Nat), [Event.errorDiag])
      else (r.2.1, ([] : List Event))
    let rest :=
      if r.1.waiting_for_start_frame = true ∧ FRAME_DELIMETER_LEN < over.1.length then
        over.1.drop (over.1.length - FRAME_DELIMETER_LEN)
      else over.1
    ({ r.1 with recv_mbuf := rest }, r.2.2 ++ over.2)
  else (s, ([] : List Event))

/-- The transmit half of the dispatcher (lines 145-163): while a send is in
progress and the driver can accept bytes, write as much of the send buffer
as fits; on full drain clear `sending`, resume the console if `resume_uart`
was set, and raise FRAME_SENT if the frame was a user frame.  Returns the
new state, the raised events and the bytes written to the uart. -/
def dispatchTx (s1 : ChannelState) (tx_av : Nat) : ChannelState × List Event × List Nat :=
  if s1.sending = true ∧ 0 < tx_av then
    let n := min s1.send_mbuf.length tx_av
    let wire := s1.send_mbuf.take n
    let rest := s1.send_mbuf.drop n
    if rest.length = 0 then
      let s2 := { s1 with send_mbuf := ([] : List Nat), sending := false,
                          resume_uart := false, sending_user_frame := false }
      let evs := (if s1.resume_uart then [Event.resumeUart] else [])
               ++ (if s1.sending_user_frame then [Event.frameSent] else [])
      (s2, evs, wire)
    else ({ s1 with send_mbuf := rest }, [], wire)
  else (s1, [], [])

/-- `mg_rpc_channel_uart_dispatcher`: one invocation of the dispatch entry
point (lines 68-164), given the available rx bytes, the tx availability and
the configured `rpc.max_frame_size`.  Returns the new state, the raised
events in order, and the bytes written to the uart. -/
def mg_rpc_channel_uart_dispatcher (s : ChannelState) (rx : List Nat)
    (tx_av : Nat) (max_frame_size : Nat) : ChannelState × List Event × List Nat :=
  let r := dispatchRx s rx max_frame_size
  let t := dispatchTx r.1 tx_av
  (t.1, r.2 ++ t.2.1, t.2.2)

/-- `mg_rpc_channel_uart_ch_connect` (lines 166-174): a no-op when already
connected, otherwise latch `waiting_for_start_frame` from the configured
flag (driver registration is environment interaction, not state). -/
def mg_rpc_channel_uart_ch_connect (s : ChannelState) : ChannelState :=
  if s.connected = false then
    { s with waiting_for_start_frame := s.wait_for_start_frame }
  else s

/-- `mg_rpc_channel_uart_send_frame` (lines 176-200): refuse unless
connected and idle; otherwise queue the encoded data frame, set the sending
flags, and suspend the console (recording `resume_uart`) iff this uart
carries console output. -/
def mg_rpc_channel_uart_send_frame (s : ChannelState) (f : List Nat) :
    Bool × ChannelState :=
  if s.connected = false ∨ s.sending = true then (false, s)
  else
    (true, { s with
        send_mbuf := s.send_mbuf ++ encode_frame f,
        sending := true, sending_user_frame := true,
        resume_uart := s.console_uart })

/-- `mg_rpc_channel_uart_ch_close` (lines 202-209): clear `connected`,
`sending` and `sending_user_frame`, call resume if `resume_uart` is set
(note: without clearing it), and raise CLOSED. -/
def mg_rpc_channel_uart_ch_close (s : ChannelState) : ChannelState × List Event :=
  ({ s with connected := false, sending := false, sending_user_frame := false },
    (if s.resume_uart then [Event.resumeUart] else []) ++ [Event.closedEv])

/-- `mg_rpc_channel_uart` (lines 244-265): a freshly created channel; the
`calloc` zeroes every flag and both buffers, then `wait_for_start_frame` is
set from the argument. -/
def mg_rpc_channel_uart (wait_for_start_frame : Bool) (console_uart : Bool) :
    ChannelState :=
  { wait_for_start_frame := wait_for_start_frame,
    waiting_for_start_frame := false, connected := false, sending := false,
    sending_user_frame := false, resume_uart := false,
    recv_mbuf := [], send_mbuf := [], console_uart := console_uart }

/-- The operations the driver and the RPC layer can perform on a live
channel after a send: dispatcher invocations (with given rx bytes, tx
availability and configured max frame size), close, and connect. -/
inductive Op where
  | dispatch (rx : List Nat) (tx_av : Nat) (max_frame_size : Nat)
  | close
  | connect
deriving DecidableEq, Repr

/-- One operation step, returning the new state and the raised events. -/
def stepOp (s : ChannelState) (op : Op) : ChannelState × List Event :=
  match op with
  | .dispatch rx tx_av m =>
    let r := mg_rpc_channel_uart_dispatcher s rx tx_av m
    (r.1, r.2.1)
  | .close => mg_rpc_channel_uart_ch_close s
  | .connect => (mg_rpc_channel_uart_ch_connect s, [])

/-- Run a sequence of operations, accumulating the raised events. -/
def runOps (s : ChannelState) : List Op → ChannelState × List Event
  | [] => (s, [])
  | op :: rest =>
    let r := stepOp s op
    let r2 := runOps r.1 rest
    (r2.1, r.2 ++ r2.2)

/-- Number of `mgos_debug_resume_uart()` calls among the events. -/
def countResume : List Event → Nat
  | [] => 0
  | e :: rest => (if e = Event.resumeUart then 1 else 0) + countResume rest

/-- Number of LL_ERROR diagnostics among the events. -/
def countError : List Event → Nat
  | [] => 0
  | e :: rest => (if e = Event.errorDiag then 1 else 0) + countError rest

/-- The messages of the frame-received events, in order. -/
def frameRecdMsgs : List Event → List (List Nat)
  | [] => []
  | Event.frameRecd m :: rest => m :: frameRecdMsgs rest
  | _ :: rest => frameRecdMsgs rest

/-- N repetitions of the 7 wire bytes of a handshake frame. -/
def hsRep : Nat → List Nat
  | 0 => []
  | n + 1 => (FRAME_DELIMETER ++ [EOF_CHAR] ++ FRAME_DELIMETER) ++ hsRep n

/-! Helper lemmas about the hex encoding and CRC-32. -/

theorem hexDigitVal_nibbleChar (d : Nat) (h : d < 16) :
    hexDigitVal (nibbleChar d) = some d := by
  unfold hexDigitVal nibbleChar
  split_ifs with h1 h2 h3 h4 h5 h6 h7 <;> simp_all <;> omega

theorem hex8_length (n : Nat) : (hex8 n).length = 8 := rfl

theorem nibbleChar_range (d : Nat) (h : d < 16) :
    (48 ≤ nibbleChar d ∧ nibbleChar d ≤ 57) ∨
    (97 ≤ nibbleChar d ∧ nibbleChar d ≤ 102) := by
  unfold nibbleChar
  split_ifs with h1
  · left; omega
  · right; omega

theorem hex8_mem_range (n b : Nat) (h : b ∈ hex8 n) :
    (48 ≤ b ∧ b ≤ 57) ∨ (97 ≤ b ∧ b ≤ 102) := by
  have hm : ∀ k, n / 16 ^ k % 16 < 16 := fun k => Nat.mod_lt _ (by norm_num)
  unfold hex8 at h
  simp only [List.mem_cons, List.mem_singleton, List.not_mem_nil, or_false] at h
  rcases h with h | h | h | h | h | h | h | h <;> subst h <;>
    first
      | exact nibbleChar_range _ (hm _)
      | exact nibbleChar_range _ (Nat.mod_lt _ (by norm_num))

theorem isSpaceByte_ge48 (b : Nat) (h : 48 ≤ b) : isSpaceByte b = false := by
  unfold isSpaceByte
  simp only [Bool.or_eq_false_iff, decide_eq_false_iff_not]
  omega

theorem sscanf_hex_aux_cons (acc b d : Nat) (rest : List Nat)
    (h : hexDigitVal b = some d) :
    sscanf_hex_aux acc (b :: rest) = sscanf_hex_aux ((acc * 16 + d) % 2 ^ 32) rest := by
  simp [sscanf_hex_aux, h]

theorem sscanf_hex_digits_hex8 (n : Nat) (hn : n < 2 ^ 32) :
    sscanf_hex_digits (hex8 n) = some n := by
  have hm : ∀ k, n / 16 ^ k % 16 < 16 := fun k => Nat.mod_lt _ (by norm_num)
  have h7 := hexDigitVal_nibbleChar _ (hm 7)
  have h6 := hexDigitVal_nibbleChar _ (hm 6)
  have h5 := hexDigitVal_nibbleChar _ (hm 5)
  have h4 := hexDigitVal_nibbleChar _ (hm 4)
  have h3 := hexDigitVal_nibbleChar _ (hm 3)
  have h2 := hexDigitVal_nibbleChar _ (hm 2)
  have h1 := hexDigitVal_nibbleChar _ (Nat.mod_lt (n / 16) (by norm_num))
  have h0 := hexDigitVal_nibbleChar _ (Nat.mod_lt n (by norm_num))
  rw [show sscanf_hex_digits (hex8 n) =
        (if (hexDigitVal (nibbleChar (n / 16 ^ 7 % 16))).isSome then
          some (sscanf_hex_aux 0 (hex8 n)) else none) from rfl]
  rw [h7]
  simp only [Option.isSome_some, if_true]
  unfold hex8
  rw [sscanf_hex_aux_cons _ _ _ _ h7, sscanf_hex_aux_cons _ _ _ _ h6,
      sscanf_hex_aux_cons _ _ _ _ h5, sscanf_hex_aux_cons _ _ _ _ h4,
      sscanf_hex_aux_cons _ _ _ _ h3, sscanf_hex_aux_cons _ _ _ _ h2,
      sscanf_hex_aux_cons _ _ _ _ h1, sscanf_hex_aux_cons _ _ _ _ h0]
  unfold sscanf_hex_aux
  congr 1
  have e7 : (16 : Nat) ^ 7 = 268435456 := by norm_num
  have e6 : (16 : Nat) ^ 6 = 16777216 := by norm_num
  have e5 : (16 : Nat) ^ 5 = 1048576 := by norm_num
  have e4 : (16 : Nat) ^ 4 = 65536 := by norm_num
  have e3 : (16 : Nat) ^ 3 = 4096 := by norm_num
  have e2 : (16 : Nat) ^ 2 = 256 := by norm_num
  have e32 : (2 : Nat) ^ 32 = 4294967296 := by norm_num
  rw [e7, e6, e5, e4, e3, e2, e32] at *
  omega

theorem sscanf_hex_hex8 (n : Nat) (hn : n < 2 ^ 32) :
    sscanf_hex (hex8 n) = some n := by
  have hm : ∀ k, n / 16 ^ k % 16 < 16 := fun k => Nat.mod_lt _ (by norm_num)
  have h7r := nibbleChar_range _ (hm 7)
  have h6r := nibbleChar_range _ (hm 6)
  have h48 : 48 ≤ nibbleChar (n / 16 ^ 7 % 16) := by rcases h7r with h | h <;> omega
  unfold sscanf_hex
  rw [show hex8 n = nibbleChar (n / 16 ^ 7 % 16) ::
        (nibbleChar (n / 16 ^ 6 % 16) ::
          [nibbleChar (n / 16 ^ 5 % 16), nibbleChar (n / 16 ^ 4 % 16),
           nibbleChar (n / 16 ^ 3 % 16), nibbleChar (n / 16 ^ 2 % 16),
           nibbleChar (n / 16 % 16), nibbleChar (n % 16)]) from rfl]
  rw [List.dropWhile_cons,
      if_neg (show ¬ (isSpaceByte (nibbleChar (n / 16 ^ 7 % 16)) = true) from by
        rw [isSpaceByte_ge48 _ h48]; simp)]
  rw [show ∀ b T, sscanf_hex_signed (b :: T) =
        (if b = 43 then sscanf_hex_body T
         else if b = 45 then
           Option.map (fun v => (2 ^ 32 - v) % 2 ^ 32) (sscanf_hex_body T)
         else sscanf_hex_body (b :: T)) from fun b T => rfl]
  rw [if_neg (show ¬ (nibbleChar (n / 16 ^ 7 % 16) = 43) from by omega),
      if_neg (show ¬ (nibbleChar (n / 16 ^ 7 % 16) = 45) from by omega)]
  rw [show ∀ b x R, sscanf_hex_body (b :: x :: R) =
        (if b = 48 ∧ (x = 120 ∨ x = 88) then some ((sscanf_hex_digits R).getD 0)
         else sscanf_hex_digits (b :: x :: R)) from fun b x R => rfl]
  rw [if_neg (show ¬ (nibbleChar (n / 16 ^ 7 % 16) = 48 ∧
        (nibbleChar (n / 16 ^ 6 % 16) = 120 ∨ nibbleChar (n / 16 ^ 6 % 16) = 88)) from by
      rintro ⟨-, hor⟩
      rcases hor with hx | hx <;> rcases h6r with h | h <;> omega)]
  exact sscanf_hex_digits_hex8 n hn

theorem crc32_bit_lt (c : Nat) (h : c < 2 ^ 32) : crc32_bit c < 2 ^ 32 := by
  unfold crc32_bit
  split
  · exact Nat.xor_lt_two_pow (by omega) (by norm_num)
  · omega

theorem crc32_byte_lt (c b : Nat) (h : c < 2 ^ 32) : crc32_byte c b < 2 ^ 32 := by
  unfold crc32_byte
  apply crc32_bit_lt; apply crc32_bit_lt; apply crc32_bit_lt; apply crc32_bit_lt
  apply crc32_bit_lt; apply crc32_bit_lt; apply crc32_bit_lt; apply crc32_bit_lt
  exact Nat.xor_lt_two_pow h (lt_trans (Nat.mod_lt _ (by norm_num)) (by norm_num))

theorem cs_crc32_lt (data : List Nat) : cs_crc32 0 data < 2 ^ 32 := by
  unfold cs_crc32
  apply Nat.xor_lt_two_pow _ (by norm_num)
  have : ∀ (l : List Nat) (c : Nat), c < 2 ^ 32 → l.foldl crc32_byte c < 2 ^ 32 := by
    intro l
    induction l with
    | nil => intro c hc; simpa using hc
    | cons x xs ih => intro c hc; exact ih _ (crc32_byte_lt _ _ hc)
  exact this _ _ (by norm_num)

/-! Helper lemmas about the delimiter scan and the metadata split. -/

theorem findDelim_some_bound (l : List Nat) (k : Nat) (h : findDelim l = some k) :
    k + 3 ≤ l.length := by
  induction l generalizing k with
  | nil => simp [findDelim] at h
  | cons b rest ih =>
    unfold findDelim at h
    by_cases hsw : startsWithDelim (b :: rest) = true
    · rw [if_pos hsw] at h
      cases h
      unfold startsWithDelim at hsw
      simp only [decide_eq_true_eq] at hsw
      have h3 : (List.take 3 (b :: rest)).length = 3 := by rw [hsw]; rfl
      rw [List.length_take, min_eq_left_iff] at h3
      omega
    · rw [if_neg hsw] at h
      cases hfd : findDelim rest with
      | none => rw [hfd] at h; exact Option.noConfusion h
      | some k2 =>
        rw [hfd, Option.map_some'] at h
        cases h
        have := ih _ hfd
        simp only [List.length_cons]
        omega

theorem fd_cons34 (l : List Nat) : findDelim (34 :: 34 :: 34 :: l) = some 0 := by
  simp [findDelim, startsWithDelim, FRAME_DELIMETER]

theorem fd_append_all_ne (H B : List Nat) (hH : ∀ b ∈ H, b ≠ 34) (j : Nat)
    (hB : findDelim B = some j) : findDelim (H ++ B) = some (H.length + j) := by
  induction H with
  | nil => simpa using hB
  | cons x xs ih =>
    have hx : x ≠ 34 := hH x (List.mem_cons_self x xs)
    have hsw : ¬ (startsWithDelim (x :: (xs ++ B)) = true) := by
      simp only [startsWithDelim, decide_eq_true_eq, FRAME_DELIMETER]
      intro hc
      have hh := congrArg List.head? hc
      rw [show (List.take 3 (x :: (xs ++ B))).head? = some x by
            rw [List.take_succ_cons]; rfl] at hh
      simp only [List.head?_cons, Option.some.injEq] at hh
      exact hx hh
    rw [List.cons_append]
    unfold findDelim
    rw [if_neg hsw, ih (fun b hb => hH b (List.mem_cons_of_mem x hb))]
    rw [Option.map_some']
    simp only [List.length_cons, Option.some.injEq]
    omega

theorem fd_append_msg (P R : List Nat) (hP : findDelim P = none)
    (hlast : P.getLast? ≠ some 34) (j : Nat) (hR : findDelim R = some j) :
    findDelim (P ++ R) = some (P.length + j) := by
  induction P with
  | nil => simpa using hR
  | cons a P2 ih =>
    have hps : ¬ (startsWithDelim (a :: P2) = true) ∧ findDelim P2 = none := by
      unfold findDelim at hP
      by_cases hsw : startsWithDelim (a :: P2) = true
      · rw [if_pos hsw] at hP; exact Option.noConfusion hP
      · rw [if_neg hsw] at hP
        refine ⟨hsw, ?_⟩
        cases hfd : findDelim P2 with
        | none => rfl
        | some k2 => rw [hfd, Option.map_some'] at hP; exact Option.noConfusion hP
    have hsw2 : ¬ (startsWithDelim (a :: (P2 ++ R)) = true) := by
      match P2 with
      | [] =>
        have ha : a ≠ 34 := by
          rw [List.getLast?_singleton] at hlast
          intro h; exact hlast (by rw [h])
        simp only [startsWithDelim, decide_eq_true_eq, FRAME_DELIMETER, List.nil_append]
        intro hc
        have hh := congrArg List.head? hc
        rw [show (List.take 3 (a :: R)).head? = some a by
              rw [List.take_succ_cons]; rfl] at hh
        simp only [List.head?_cons, Option.some.injEq] at hh
        exact ha hh
      | [x] =>
        have hx : x ≠ 34 := by
          have h2 : ([a, x] : List Nat).getLast? = some x := by
            rw [List.getLast?_cons_cons, List.getLast?_singleton]
          rw [h2] at hlast
          intro h; exact hlast (by rw [h])
        simp only [startsWithDelim, decide_eq_true_eq, FRAME_DELIMETER, List.cons_append,
          List.singleton_append, List.take_succ_cons, List.cons.injEq]
        intro hc
        exact hx hc.2.1
      | x :: y :: t =>
        intro hc
        apply hps.1
        simp only [startsWithDelim, decide_eq_true_eq, List.cons_append,
          List.take_succ_cons, List.take_zero] at hc ⊢
        exact hc
    have hlast2 : P2.getLast? ≠ some 34 := by
      match P2 with
      | [] => simp
      | b :: t =>
        rw [List.getLast?_cons_cons] at hlast
        exact hlast
    rw [List.cons_append]
    unfold findDelim
    rw [if_neg hsw2, ih hps.2 hlast2, Option.map_some']
    simp only [List.length_cons, Option.some.injEq]
    omega

theorem takeWhile_append_all {α : Type} (p : α → Bool) (l1 l2 : List α)
    (h : ∀ x ∈ l1, p x = true) :
    (l1 ++ l2).takeWhile p = l1 ++ l2.takeWhile p := by
  induction l1 with
  | nil => simp
  | cons x xs ih =>
    rw [List.cons_append, List.takeWhile_cons, if_pos (h x (List.mem_cons_self x xs)),
        ih (fun y hy => h y (List.mem_cons_of_mem x hy)), List.cons_append]

theorem splitMeta_msg_hex (P : List Nat) (h125 : P.getLast? = some 125) (C : Nat) :
    splitMeta (P ++ hex8 C) = (P, hex8 C) := by
  unfold splitMeta
  have hrev : (P ++ hex8 C).reverse = (hex8 C).reverse ++ P.reverse := by simp
  have hPrev : P.reverse.head? = some 125 := by rw [List.head?_reverse]; exact h125
  obtain ⟨t, ht⟩ : ∃ t, P.reverse = 125 :: t := by
    cases hc : P.reverse with
    | nil => rw [hc] at hPrev; simp at hPrev
    | cons x t =>
      rw [hc] at hPrev
      simp only [List.head?_cons, Option.some.injEq] at hPrev
      exact ⟨t, by rw [hPrev]⟩
  have hall : ∀ b ∈ (hex8 C).reverse, (b != 125) = true := by
    intro b hb
    have := hex8_mem_range C b (List.mem_reverse.mp hb)
    simp only [bne_iff_ne, ne_eq]
    omega
  rw [hrev, takeWhile_append_all _ _ _ hall, ht]
  have h1 : List.takeWhile (fun b => b != 125) (125 :: t) = [] := by
    rw [List.takeWhile_cons]
    simp
  rw [h1, List.append_nil, List.reverse_reverse]
  show (List.take ((P ++ hex8 C).length - (hex8 C).length) (P ++ hex8 C), hex8 C) = (P, hex8 C)
  have hlen : (P ++ hex8 C).length - (hex8 C).length = P.length := by
    simp [List.length_append]
  rw [hlen, List.take_left]

/-! Helper lemmas about the extraction loop. -/

theorem extractLoopFuel_nil (fuel : Nat) (s : ChannelState) :
    extractLoopFuel fuel s [] = (s, [], []) := by
  cases fuel <;> simp [extractLoopFuel, findDelim]

theorem extractLoopFuel_none (fuel : Nat) (s : ChannelState) (buf : List Nat)
    (h : findDelim buf = none) : extractLoopFuel fuel s buf = (s, buf, []) := by
  cases fuel with
  | zero => rfl
  | succ f2 => simp [extractLoopFuel, h]

theorem extractLoopFuel_step (f2 : Nat) (s : ChannelState) (buf : List Nat) (k : Nat)
    (hk : findDelim buf = some k) :
    extractLoopFuel (f2 + 1) s buf =
      withEvents (if k = 0 then (s, ([] : List Event)) else handleFrame s (buf.take k)).2
        (extractLoopFuel f2
          (if k = 0 then (s, ([] : List Event)) else handleFrame s (buf.take k)).1
          (buf.drop (k + FRAME_DELIMETER_LEN))) := by
  conv_lhs => rw [extractLoopFuel]
  rw [hk]

theorem extractLoopFuel_step0 (f2 : Nat) (s : ChannelState) (buf : List Nat)
    (hk : findDelim buf = some 0) :
    extractLoopFuel (f2 + 1) s buf =
      extractLoopFuel f2 s (buf.drop FRAME_DELIMETER_LEN) := by
  rw [extractLoopFuel_step _ _ _ _ hk]
  simp [withEvents]

theorem extractLoopFuel_stepPos (f2 : Nat) (s : ChannelState) (buf : List Nat)
    (k : Nat) (hk : findDelim buf = some k) (hkpos : k ≠ 0) :
    extractLoopFuel (f2 + 1) s buf =
      withEvents (handleFrame s (buf.take k)).2
        (extractLoopFuel f2 (handleFrame s (buf.take k)).1
          (buf.drop (k + FRAME_DELIMETER_LEN))) := by
  rw [extractLoopFuel_step _ _ _ _ hk, if_neg hkpos]

theorem elf_irrel (m : Nat) : ∀ (s : ChannelState) (buf : List Nat), buf.length ≤ m →
    ∀ fuel, buf.length ≤ fuel → extractLoopFuel fuel s buf = extractLoopFuel m s buf := by
  induction m using Nat.strong_induction_on with
  | _ m ih =>
    intro s buf hm fuel hf
    cases hd : findDelim buf with
    | none => rw [extractLoopFuel_none _ _ _ hd, extractLoopFuel_none _ _ _ hd]
    | some k =>
      have hb : k + 3 ≤ buf.length := findDelim_some_bound _ _ hd
      obtain ⟨m2, rfl⟩ : ∃ m2, m = m2 + 1 := ⟨m - 1, by omega⟩
      obtain ⟨f3, rfl⟩ : ∃ f3, fuel = f3 + 1 := ⟨fuel - 1, by omega⟩
      rw [extractLoopFuel_step _ _ _ _ hd, extractLoopFuel_step _ _ _ _ hd]
      have hdl : (buf.drop (k + FRAME_DELIMETER_LEN)).length = buf.length - (k + 3) := by
        simp [FRAME_DELIMETER_LEN]
      rw [ih m2 (by omega) _ _ (by omega) f3 (by omega)]

theorem extractLoop_eq_fuel (s : ChannelState) (buf : List Nat) (fuel : Nat)
    (h : buf.length ≤ fuel) : extractLoop s buf = extractLoopFuel fuel s buf := by
  rw [extractLoop, elf_irrel buf.length s buf (le_refl _) fuel h]

/-! Processing of a well-formed encoded frame. -/

theorem processDataFrame_encode (P : List Nat) (h125 : P.getLast? = some 125)
    (hne : P ≠ []) :
    processDataFrame (P ++ hex8 (cs_crc32 0 P)) = some P := by
  have hs := splitMeta_msg_hex P h125 (cs_crc32 0 P)
  have hm2 : frameMsg2 (P ++ hex8 (cs_crc32 0 P)) = P := by
    unfold frameMsg2
    rw [hs]
    simp [hex8_length, sscanf_hex_hex8 _ (cs_crc32_lt P)]
  unfold processDataFrame
  rw [hm2, if_pos (List.length_pos.mpr hne)]

theorem handleFrame_encode (s : ChannelState) (P : List Nat)
    (h125 : P.getLast? = some 125) (hne : P ≠ []) :
    handleFrame s (P ++ hex8 (cs_crc32 0 P)) = (s, [Event.frameRecd P]) := by
  have hlen : (P ++ hex8 (cs_crc32 0 P)).length = P.length + 8 := by
    simp [hex8_length]
  have hne4 : ¬ (P ++ hex8 (cs_crc32 0 P) = [EOF_CHAR]) := by
    intro hc
    have := congrArg List.length hc
    rw [hlen] at this
    have hp : 0 < P.length := List.length_pos.mpr hne
    simp [EOF_CHAR] at this
  unfold handleFrame
  rw [if_neg hne4, processDataFrame_encode P h125 hne]

theorem extractLoop_encode (s : ChannelState) (P : List Nat)
    (hne : P ≠ []) (h125 : P.getLast? = some 125) (hnd : findDelim P = none) :
    extractLoop s (encode_frame P) = (s, [], [Event.frameRecd P]) := by
  have hlenH : (hex8 (cs_crc32 0 P)).length = 8 := hex8_length _
  have he : encode_frame P =
      34 :: 34 :: 34 :: ((P ++ hex8 (cs_crc32 0 P)) ++ FRAME_DELIMETER) := by
    simp [encode_frame, FRAME_DELIMETER]
  have hlen : (encode_frame P).length = P.length + 14 := by
    rw [he]
    simp [FRAME_DELIMETER, hlenH]
  rw [extractLoop_eq_fuel _ _ (P.length + 14) (by rw [hlen]), he]
  -- first iteration: the opening delimiter, an empty frame span
  rw [show P.length + 14 = (P.length + 13) + 1 from by omega,
      extractLoopFuel_step0 _ _ _ (fd_cons34 _)]
  rw [show FRAME_DELIMETER_LEN = 3 from rfl]
  simp only [List.drop_succ_cons, List.drop_zero]
  -- second iteration: the data frame
  have hfd2 : findDelim ((P ++ hex8 (cs_crc32 0 P)) ++ FRAME_DELIMETER) =
      some (P.length + 8) := by
    rw [List.append_assoc]
    have h1 : findDelim (hex8 (cs_crc32 0 P) ++ FRAME_DELIMETER) = some 8 := by
      have h0 : findDelim FRAME_DELIMETER = some 0 := by decide
      have := fd_append_all_ne (hex8 (cs_crc32 0 P)) FRAME_DELIMETER
        (fun b hb => by have := hex8_mem_range _ b hb; omega) 0 h0
      simpa [hlenH] using this
    have h2 := fd_append_msg P (hex8 (cs_crc32 0 P) ++ FRAME_DELIMETER) hnd
      (by rw [h125]; simp) 8 h1
    exact h2
  rw [show P.length + 13 = (P.length + 12) + 1 from by omega,
      extractLoopFuel_stepPos _ _ _ _ hfd2 (by omega)]
  have htake : ((P ++ hex8 (cs_crc32 0 P)) ++ FRAME_DELIMETER).take (P.length + 8) =
      P ++ hex8 (cs_crc32 0 P) := by
    have h3 : (P ++ hex8 (cs_crc32 0 P)).length = P.length + 8 := by simp [hlenH]
    rw [← h3, List.take_left]
  have hdrop : ((P ++ hex8 (cs_crc32 0 P)) ++ FRAME_DELIMETER).drop
      (P.length + 8 + FRAME_DELIMETER_LEN) = [] := by
    apply List.drop_eq_nil_of_le
    simp [hlenH, FRAME_DELIMETER, FRAME_DELIMETER_LEN]
  rw [htake, hdrop, handleFrame_encode s P h125 hne, extractLoopFuel_nil]
  rfl

/-! Invariants of frame handling and the extraction loop. -/

theorem countResume_append (a b : List Event) :
    countResume (a ++ b) = countResume a + countResume b := by
  induction a with
  | nil => simp [countResume]
  | cons x xs ih => simp [countResume, ih]; omega

theorem countError_append (a b : List Event) :
    countError (a ++ b) = countError a + countError b := by
  induction a with
  | nil => simp [countError]
  | cons x xs ih => simp [countError, ih]; omega

theorem frameRecdMsgs_append (a b : List Event) :
    frameRecdMsgs (a ++ b) = frameRecdMsgs a ++ frameRecdMsgs b := by
  induction a with
  | nil => simp [frameRecdMsgs]
  | cons x xs ih =>
    cases x <;> simp [frameRecdMsgs, ih]

theorem processDataFrame_some_ne (f msg : List Nat)
    (h : processDataFrame f = some msg) : msg ≠ [] := by
  unfold processDataFrame at h
  by_cases hpos : 0 < (frameMsg2 f).length
  · rw [if_pos hpos] at h
    injection h with h2
    intro hc
    rw [h2, hc] at hpos
    simp at hpos
  · rw [if_neg hpos] at h
    exact Option.noConfusion h

theorem handleFrame_inv (s : ChannelState) (f : List Nat) :
    (handleFrame s f).1.resume_uart = s.resume_uart ∧
    (s.connected = true → (handleFrame s f).1.connected = true) ∧
    countResume (handleFrame s f).2 = 0 ∧
    countError (handleFrame s f).2 = 0 := by
  unfold handleFrame
  split_ifs with h
  · by_cases hc : s.connected = false <;>
      simp [hc, countResume, countError]
  · cases hpd : processDataFrame f <;> simp [countResume, countError]

theorem handleFrame_recd (s : ChannelState) (f msg : List Nat)
    (h : Event.frameRecd msg ∈ (handleFrame s f).2) :
    processDataFrame f = some msg := by
  unfold handleFrame at h
  split_ifs at h with hf
  · by_cases hc : s.connected = false <;> simp [hc] at h
  · cases hpd : processDataFrame f with
    | none => rw [hpd] at h; simp at h
    | some m =>
      rw [hpd] at h
      simp only [List.mem_singleton, Event.frameRecd.injEq] at h
      rw [h]

theorem extractLoopFuel_inv (fuel : Nat) : ∀ (s : ChannelState) (buf : List Nat),
    (extractLoopFuel fuel s buf).1.resume_uart = s.resume_uart ∧
    (s.connected = true → (extractLoopFuel fuel s buf).1.connected = true) ∧
    countResume (extractLoopFuel fuel s buf).2.2 = 0 ∧
    countError (extractLoopFuel fuel s buf).2.2 = 0 := by
  induction fuel with
  | zero => intro s buf; simp [extractLoopFuel, countResume, countError]
  | succ f2 ih =>
    intro s buf
    cases hd : findDelim buf with
    | none =>
      rw [extractLoopFuel_none _ _ _ hd]
      simp [countResume, countError]
    | some k =>
      by_cases hk : k = 0
      · subst hk
        rw [extractLoopFuel_step0 _ _ _ hd]
        exact ih _ _
      · rw [extractLoopFuel_stepPos _ _ _ _ hd hk]
        have h1 := handleFrame_inv s (buf.take k)
        have h2 := ih (handleFrame s (buf.take k)).1 (buf.drop (k + FRAME_DELIMETER_LEN))
        unfold withEvents
        refine ⟨by rw [h2.1, h1.1], fun hc => h2.2.1 (h1.2.1 hc), ?_, ?_⟩
        · rw [countResume_append, h1.2.2.1, h2.2.2.1]
        · rw [countError_append, h1.2.2.2, h2.2.2.2]

theorem extractLoopFuel_recd (fuel : Nat) : ∀ (s : ChannelState) (buf msg : List Nat),
    Event.frameRecd msg ∈ (extractLoopFuel fuel s buf).2.2 → msg ≠ [] := by
  induction fuel with
  | zero => intro s buf msg h; simp [extractLoopFuel] at h
  | succ f2 ih =>
    intro s buf msg h
    cases hd : findDelim buf with
    | none =>
      rw [extractLoopFuel_none _ _ _ hd] at h
      simp at h
    | some k =>
      by_cases hk : k = 0
      · subst hk
        rw [extractLoopFuel_step0 _ _ _ hd] at h
        exact ih _ _ _ h
      · rw [extractLoopFuel_stepPos _ _ _ _ hd hk] at h
        unfold withEvents at h
        rw [List.mem_append] at h
        cases h with
        | inl h1 =>
          exact processDataFrame_some_ne _ _ (handleFrame_recd _ _ _ h1)
        | inr h2 => exact ih _ _ _ h2

/-! The handshake frame stream. -/

theorem hsRep_cons (n : Nat) :
    hsRep (n + 1) = 34 :: 34 :: 34 :: 4 :: 34 :: 34 :: 34 :: hsRep n := rfl

theorem fd_hs_tail (l : List Nat) : findDelim (4 :: 34 :: 34 :: 34 :: l) = some 1 := by
  rw [show findDelim (4 :: 34 :: 34 :: 34 :: l) =
        (if startsWithDelim (4 :: 34 :: 34 :: 34 :: l) then some 0
         else (findDelim (34 :: 34 :: 34 :: l)).map (· + 1)) from rfl]
  rw [if_neg (by simp [startsWithDelim, FRAME_DELIMETER, List.take]), fd_cons34]
  rfl

theorem handleFrame_hs_connected (s : ChannelState) (hc : s.connected = true) :
    handleFrame s [4] =
      ({ s with waiting_for_start_frame := false, sending := true,
                send_mbuf := s.send_mbuf ++ FRAME_DELIMETER ++ [EOF_CHAR] ++ FRAME_DELIMETER },
        []) := by
  unfold handleFrame
  rw [if_pos (show ([4] : List Nat) = [EOF_CHAR] from by decide)]
  simp [hc]

theorem extractLoopFuel_hsRep (n : Nat) : ∀ (fuel : Nat) (s : ChannelState),
    7 * n ≤ fuel → s.connected = true →
    extractLoopFuel fuel s (hsRep n) =
      ((if n = 0 then s else
        { s with waiting_for_start_frame := false, sending := true,
                 send_mbuf := s.send_mbuf ++ hsRep n }), [], []) := by
  induction n with
  | zero =>
    intro fuel s hf hc
    rw [show hsRep 0 = [] from rfl, extractLoopFuel_nil, if_pos rfl]
  | succ n ih =>
    intro fuel s hf hc
    obtain ⟨f1, rfl⟩ : ∃ f1, fuel = f1 + 1 := ⟨fuel - 1, by omega⟩
    rw [hsRep_cons, extractLoopFuel_step0 _ _ _ (fd_cons34 _)]
    rw [show FRAME_DELIMETER_LEN = 3 from rfl]
    simp only [List.drop_succ_cons, List.drop_zero]
    obtain ⟨f2, rfl⟩ : ∃ f2, f1 = f2 + 1 := ⟨f1 - 1, by omega⟩
    rw [extractLoopFuel_stepPos _ _ _ _ (fd_hs_tail _) (by omega)]
    rw [show List.take 1 (4 :: 34 :: 34 :: 34 :: hsRep n) = [4] from rfl]
    rw [show (4 :: 34 :: 34 :: 34 :: hsRep n).drop (1 + FRAME_DELIMETER_LEN) = hsRep n
          from rfl]
    rw [handleFrame_hs_connected s hc]
    rw [ih f2 _ (by omega) (by simp [hc])]
    by_cases hn : n = 0
    · subst hn
      simp [withEvents, hsRep, List.append_assoc]
      rfl
    · rw [if_neg hn]
      simp [withEvents, if_neg (Nat.succ_ne_zero n), hsRep_cons, List.append_assoc]
      rfl

theorem hsRep_length (n : Nat) : (hsRep n).length = 7 * n := by
  induction n with
  | zero => rfl
  | succ m ih => rw [hsRep_cons]; simp [ih]; omega

theorem handleFrame_hs_disconnected (s : ChannelState) (hc : s.connected = false) :
    handleFrame s [4] =
      ({ s with waiting_for_start_frame := false, connected := true, sending := true,
                send_mbuf := s.send_mbuf ++ FRAME_DELIMETER ++ [EOF_CHAR] ++ FRAME_DELIMETER },
        [Event.openEv]) := by
  unfold handleFrame
  rw [if_pos (show ([4] : List Nat) = [EOF_CHAR] from by decide)]
  simp [hc]

theorem extractLoop_hsRep_open (s : ChannelState) (n : Nat) (hc : s.connected = false) :
    extractLoop s (hsRep (n + 1)) =
      ({ s with waiting_for_start_frame := false, connected := true, sending := true,
                send_mbuf := s.send_mbuf ++ hsRep (n + 1) },
        [], [Event.openEv]) := by
  rw [extractLoop_eq_fuel _ _ (7 * n + 7) (by rw [hsRep_length]; omega)]
  rw [hsRep_cons, show 7 * n + 7 = (7 * n + 6) + 1 from by omega,
      extractLoopFuel_step0 _ _ _ (fd_cons34 _)]
  rw [show FRAME_DELIMETER_LEN = 3 from rfl]
  simp only [List.drop_succ_cons, List.drop_zero]
  rw [show 7 * n + 6 = (7 * n + 5) + 1 from by omega,
      extractLoopFuel_stepPos _ _ _ _ (fd_hs_tail _) (by omega)]
  rw [show List.take 1 (4 :: 34 :: 34 :: 34 :: hsRep n) = [4] from rfl]
  rw [show (4 :: 34 :: 34 :: 34 :: hsRep n).drop (1 + FRAME_DELIMETER_LEN) = hsRep n
        from rfl]
  rw [handleFrame_hs_disconnected s hc]
  rw [extractLoopFuel_hsRep n (7 * n + 5) _ (by omega) (by simp)]
  by_cases hn : n = 0
  · subst hn
    simp [withEvents, hsRep, List.append_assoc]
    rfl
  · rw [if_neg hn]
    simp [withEvents, hsRep_cons, List.append_assoc]
    rfl

/-! Invariants of the two dispatcher halves. -/

theorem dispatchRx_inv (s : ChannelState) (rx : List Nat) (cfg : Nat) :
    (dispatchRx s rx cfg).1.resume_uart = s.resume_uart ∧
    (s.connected = true → (dispatchRx s rx cfg).1.connected = true) ∧
    countResume (dispatchRx s rx cfg).2 = 0 := by
  have hi := extractLoopFuel_inv (s.recv_mbuf ++ rx).length s (s.recv_mbuf ++ rx)
  unfold dispatchRx extractLoop
  by_cases h : 0 < rx.length
  · rw [if_pos h]
    dsimp only
    refine ⟨hi.1, hi.2.1, ?_⟩
    rw [countResume_append, hi.2.2.1]
    split_ifs <;> simp [countResume]
  · rw [if_neg h]
    simp [countResume]

theorem dispatchTx_misc (s1 : ChannelState) (tx_av : Nat) :
    (dispatchTx s1 tx_av).1.connected = s1.connected ∧
    (dispatchTx s1 tx_av).1.recv_mbuf = s1.recv_mbuf ∧
    countError (dispatchTx s1 tx_av).2.1 = 0 ∧
    frameRecdMsgs (dispatchTx s1 tx_av).2.1 = [] := by
  unfold dispatchTx
  by_cases hs : s1.sending = true ∧ 0 < tx_av
  · rw [if_pos hs]
    dsimp only
    by_cases hd : (s1.send_mbuf.drop (min s1.send_mbuf.length tx_av)).length = 0
    · rw [if_pos hd]
      refine ⟨rfl, rfl, ?_, ?_⟩
      · rw [countError_append]; split_ifs <;> simp [countError]
      · rw [frameRecdMsgs_append]; split_ifs <;> simp [frameRecdMsgs]
    · rw [if_neg hd]
      exact ⟨rfl, rfl, rfl, rfl⟩
  · rw [if_neg hs]
    exact ⟨rfl, rfl, rfl, rfl⟩

theorem dispatchTx_resume (s1 : ChannelState) (tx_av : Nat) :
    countResume (dispatchTx s1 tx_av).2.1 +
      (if (dispatchTx s1 tx_av).1.resume_uart = true then 1 else 0) =
      (if s1.resume_uart = true then 1 else 0) := by
  unfold dispatchTx
  by_cases hs : s1.sending = true ∧ 0 < tx_av
  · rw [if_pos hs]
    dsimp only
    by_cases hd : (s1.send_mbuf.drop (min s1.send_mbuf.length tx_av)).length = 0
    · rw [if_pos hd]
      dsimp only
      rw [countResume_append]
      split_ifs <;> simp_all [countResume]
    · rw [if_neg hd]
      simp [countResume]
  · rw [if_neg hs]
    simp [countResume]

theorem stepOp_resume (s : ChannelState) (op : Op) (hop : op ≠ Op.close) :
    countResume (stepOp s op).2 +
      (if (stepOp s op).1.resume_uart = true then 1 else 0) =
      (if s.resume_uart = true then 1 else 0) := by
  cases op with
  | dispatch rx tx m =>
    have h1 := dispatchRx_inv s rx m
    have h2 := dispatchTx_resume (dispatchRx s rx m).1 tx
    rw [h1.1] at h2
    unfold stepOp mg_rpc_channel_uart_dispatcher
    dsimp only
    rw [countResume_append, h1.2.2]
    omega
  | close => exact absurd rfl hop
  | connect =>
    unfold stepOp mg_rpc_channel_uart_ch_connect
    split_ifs <;> simp [countResume]

theorem runOps_resume (ops : List Op) : ∀ s : ChannelState, Op.close ∉ ops →
    countResume (runOps s ops).2 +
      (if (runOps s ops).1.resume_uart = true then 1 else 0) =
      (if s.resume_uart = true then 1 else 0) := by
  induction ops with
  | nil => intro s h; simp [runOps, countResume]
  | cons op rest ih =>
    intro s h
    have hop : op ≠ Op.close := fun hc => h (hc ▸ List.mem_cons_self _ _)
    have hrest : Op.close ∉ rest := fun hc => h (List.mem_cons_of_mem _ hc)
    have h1 := stepOp_resume s op hop
    have h2 := ih (stepOp s op).1 hrest
    unfold runOps
    dsimp only
    rw [countResume_append]
    omega

/-! The claims. -/

/-- Claim C1, counterexample: the round-trip property fails for the empty
payload.  Extracting the encoded empty data frame (delimiter, the 8 hex
digits of CRC-32 of nothing, delimiter) yields NO delivered frame — the
metadata scan consumes the whole candidate payload, the checksum verifies
against the empty message, and the empty message is skipped — instead of
the claimed single frame equal to the payload. -/
theorem C1_roundtrip_counterexample :
    ¬ (frameRecdMsgs
        (extractLoop (mg_rpc_channel_uart false false) (encode_frame [])).2.2 =
      [[]]) := by
  decide

/-- Claim C1 (amended): for every non-empty payload whose last byte is the
closing brace 0x7d and which contains no occurrence of the 3-byte frame
delimiter, feeding the encoded data frame into the receive-side extraction
loop yields exactly one frame-received event whose message bytes equal the
payload, consumes the whole buffer and leaves the channel state unchanged. -/
theorem C1_roundtrip_amended (s : ChannelState) (P : List Nat)
    (hne : P ≠ []) (h125 : P.getLast? = some 125) (hnd : findDelim P = none) :
    extractLoop s (encode_frame P) = (s, [], [Event.frameRecd P]) :=
  extractLoop_encode s P hne h125 hnd

/-- Claim C1, witness: the round trip at the concrete payload 0x7b 0x7d. -/
theorem C1_roundtrip_witness :
    extractLoop (mg_rpc_channel_uart false false) (encode_frame [123, 125]) =
      (mg_rpc_channel_uart false false, [], [Event.frameRecd [123, 125]]) :=
  C1_roundtrip_amended _ [123, 125] (by decide) (by decide) (by decide)

/-- Claim C2, counterexample: a received data frame whose trailing metadata
is 9 bytes (the digit 0 followed by the 8 hex digits of the correct
CRC-32): the parsed value of its 8 leading hex digits differs from CRC-32
of the message, yet the frame IS delivered, because `sscanf` parses the
whole 9-digit run, whose value does equal the CRC. -/
theorem C2_checksum_counterexample :
    8 ≤ (splitMeta (125 :: 48 :: hex8 (cs_crc32 0 [125]))).2.length ∧
    ((sscanf_hex ((splitMeta (125 :: 48 :: hex8 (cs_crc32 0 [125]))).2.take 8)).isSome
      = true) ∧
    sscanf_hex ((splitMeta (125 :: 48 :: hex8 (cs_crc32 0 [125]))).2.take 8) ≠
      some (cs_crc32 0 (splitMeta (125 :: 48 :: hex8 (cs_crc32 0 [125]))).1) ∧
    processDataFrame (125 :: 48 :: hex8 (cs_crc32 0 [125])) =
      some (splitMeta (125 :: 48 :: hex8 (cs_crc32 0 [125]))).1 := by
  decide

/-- Claim C2 (amended): for every received data frame whose trailing
metadata is at least 8 bytes, the frame is delivered (as a frame-received
event carrying exactly the message bytes before the split point) iff the
metadata, converted by `sscanf` as a hexadecimal numeral — leading
whitespace skipped, an optional sign, an optional 0x/0X prefix, then the
maximal run of hex digits, the value taken in the unsigned 32-bit
destination — yields exactly CRC-32 (seed 0) of those message bytes and
the message is non-empty; otherwise nothing is delivered. -/
theorem C2_checksum_amended (f msg meta : List Nat) (h : splitMeta f = (msg, meta))
    (h8 : 8 ≤ meta.length) :
    processDataFrame f =
      if sscanf_hex meta = some (cs_crc32 0 msg) ∧ msg ≠ [] then some msg else none := by
  have h1 : (splitMeta f).1 = msg := by rw [h]
  have h2 : (splitMeta f).2 = meta := by rw [h]
  unfold processDataFrame frameMsg2
  rw [h1, h2, if_pos h8]
  cases hs : sscanf_hex meta with
  | none => simp
  | some v =>
    by_cases hv : v = cs_crc32 0 msg <;> by_cases hm : msg = [] <;>
      simp [hv, hm, List.length_pos]

/-- Claim C2, witness: a frame with message 0x7b 0x7d and its correct
8-hex-digit checksum is delivered. -/
theorem C2_checksum_witness :
    processDataFrame ([123, 125] ++ hex8 (cs_crc32 0 [123, 125])) =
      if sscanf_hex (hex8 (cs_crc32 0 [123, 125])) =
            some (cs_crc32 0 [123, 125]) ∧ ([123, 125] : List Nat) ≠ [] then
        some [123, 125]
      else none :=
  C2_checksum_amended _ _ _ (by decide) (by decide)

/-- Claim C3, counterexample: a received data frame whose 8-byte metadata
does not parse as hex (eight 0x67 bytes after the brace) is NOT delivered:
the code treats the `sscanf` failure as a corrupted frame and drops it,
rather than skipping the check and passing the payload through as the
claim states. -/
theorem C3_legacy_counterexample :
    (splitMeta (125 :: List.replicate 8 103)).1 = [125] ∧
    8 ≤ (splitMeta (125 :: List.replicate 8 103)).2.length ∧
    sscanf_hex (splitMeta (125 :: List.replicate 8 103)).2 = none ∧
    processDataFrame (125 :: List.replicate 8 103) = none := by
  decide

/-- Claim C3 (amended): for every received data frame whose backward
metadata scan leaves trailing metadata shorter than 8 bytes and a
non-empty message, the checksum check is skipped and the message (the
payload up to the point where scanning stopped) is delivered without any
validation. -/
theorem C3_legacy_amended (f msg meta : List Nat) (h : splitMeta f = (msg, meta))
    (hlt : meta.length < 8) (hne : msg ≠ []) :
    processDataFrame f = some msg := by
  have h1 : (splitMeta f).1 = msg := by rw [h]
  have h2 : (splitMeta f).2 = meta := by rw [h]
  unfold processDataFrame frameMsg2
  rw [h1, h2, if_neg (show ¬ (8 ≤ meta.length) by omega),
      if_pos (List.length_pos.mpr hne)]

/-- Claim C3, witness: the frame 0x7d 0x30 0x31 (message 0x7d, metadata the
two bytes 0x30 0x31) is delivered unchecked. -/
theorem C3_legacy_witness :
    processDataFrame [125, 48, 49] = some [125] :=
  C3_legacy_amended [125, 48, 49] [125] [48, 49] (by decide) (by decide) (by decide)

/-- Claim C4 (confirmed): receiving N+1 handshake frames in one dispatch
while disconnected raises exactly one OPEN event (from the first frame);
every handshake frame, including the later ones received while connected,
queues one 7-byte handshake-reply frame on the send buffer and sets the
sending flag. -/
theorem C4_handshake_idempotent (s : ChannelState) (n cfg : Nat)
    (hc : s.connected = false) (hr : s.recv_mbuf = []) :
    mg_rpc_channel_uart_dispatcher s (hsRep (n + 1)) 0 cfg =
      ({ s with waiting_for_start_frame := false, connected := true, sending := true,
                send_mbuf := s.send_mbuf ++ hsRep (n + 1), recv_mbuf := [] },
        [Event.openEv], []) := by
  have hext := extractLoop_hsRep_open s n hc
  unfold mg_rpc_channel_uart_dispatcher dispatchRx dispatchTx
  dsimp only
  rw [if_pos (show 0 < (hsRep (n + 1)).length by rw [hsRep_length]; omega)]
  rw [hr, List.nil_append, hext]
  dsimp only
  rw [if_neg (show ¬ (cfg + 2 * FRAME_DELIMETER_LEN < ([] : List Nat).length) by simp)]
  dsimp only
  rw [if_neg (show ¬ (false = true ∧ FRAME_DELIMETER_LEN < ([] : List Nat).length) from
        by simp)]
  rw [if_neg (show ¬ (true = true ∧ (0 : Nat) < 0) from by simp)]
  simp

/-- Claim C4, witness: two handshake frames on a fresh connecting channel. -/
theorem C4_handshake_witness :
    mg_rpc_channel_uart_dispatcher
        (mg_rpc_channel_uart_ch_connect (mg_rpc_channel_uart true false))
        (hsRep 2) 0 0 =
      ({ mg_rpc_channel_uart_ch_connect (mg_rpc_channel_uart true false) with
          waiting_for_start_frame := false, connected := true, sending := true,
          send_mbuf := (mg_rpc_channel_uart_ch_connect
            (mg_rpc_channel_uart true false)).send_mbuf ++ hsRep 2,
          recv_mbuf := [] },
        [Event.openEv], []) :=
  C4_handshake_idempotent _ 1 0 (by decide) (by decide)

/-- Claim C5 (confirmed): send_frame called while not connected, or while a
send is already in progress, returns false and leaves the channel state —
buffers and all flags — exactly as it was. -/
theorem C5_send_refused (s : ChannelState) (f : List Nat)
    (h : s.connected = false ∨ s.sending = true) :
    mg_rpc_channel_uart_send_frame s f = (false, s) := by
  unfold mg_rpc_channel_uart_send_frame
  rw [if_pos h]

/-- Claim C5, witness: send on a fresh, disconnected channel fails with no
side effect. -/
theorem C5_send_refused_witness :
    mg_rpc_channel_uart_send_frame (mg_rpc_channel_uart false false) [123, 125] =
      (false, mg_rpc_channel_uart false false) :=
  C5_send_refused _ _ (Or.inl (by decide))

theorem extractLoop_inv (s : ChannelState) (buf : List Nat) :
    (extractLoop s buf).1.resume_uart = s.resume_uart ∧
    (s.connected = true → (extractLoop s buf).1.connected = true) ∧
    countResume (extractLoop s buf).2.2 = 0 ∧
    countError (extractLoop s buf).2.2 = 0 :=
  extractLoopFuel_inv _ _ _

/-- Claim C6 (confirmed): when, after frame extraction, the receive buffer
still exceeds `max_frame_size + 2 * FRAME_DELIMETER_LEN` bytes, the whole
receive buffer is dropped, exactly one error-level diagnostic is raised,
the only frame-received events of the dispatch are the ones the extraction
itself produced (none from the dropped bytes), and a connected channel
stays connected. -/
theorem C6_oversize_drop (s : ChannelState) (rx : List Nat) (tx_av cfg : Nat)
    (hrx : 0 < rx.length)
    (hov : cfg + 2 * FRAME_DELIMETER_LEN <
      (extractLoop s (s.recv_mbuf ++ rx)).2.1.length) :
    countError (mg_rpc_channel_uart_dispatcher s rx tx_av cfg).2.1 = 1 ∧
    (mg_rpc_channel_uart_dispatcher s rx tx_av cfg).1.recv_mbuf = [] ∧
    (s.connected = true →
      (mg_rpc_channel_uart_dispatcher s rx tx_av cfg).1.connected = true) ∧
    frameRecdMsgs (mg_rpc_channel_uart_dispatcher s rx tx_av cfg).2.1 =
      frameRecdMsgs (extractLoop s (s.recv_mbuf ++ rx)).2.2 := by
  have hrx1 : dispatchRx s rx cfg =
      ({ (extractLoop s (s.recv_mbuf ++ rx)).1 with recv_mbuf := [] },
        (extractLoop s (s.recv_mbuf ++ rx)).2.2 ++ [Event.errorDiag]) := by
    unfold dispatchRx
    rw [if_pos hrx]
    dsimp only
    rw [if_pos hov]
    dsimp only
    rw [if_neg (show
        ¬ ((extractLoop s (s.recv_mbuf ++ rx)).1.waiting_for_start_frame = true ∧
           FRAME_DELIMETER_LEN < ([] : List Nat).length) from by simp)]
  have hm := dispatchTx_misc (dispatchRx s rx cfg).1 tx_av
  have hinv := extractLoop_inv s (s.recv_mbuf ++ rx)
  unfold mg_rpc_channel_uart_dispatcher
  dsimp only
  refine ⟨?_, ?_, ?_, ?_⟩
  · rw [countError_append, hm.2.2.1, hrx1]
    dsimp only
    rw [countError_append, hinv.2.2.2]
    simp [countError]
  · rw [hm.2.1, hrx1]
  · intro hc
    rw [hm.1, hrx1]
    exact hinv.2.1 hc
  · rw [frameRecdMsgs_append, hm.2.2.2, hrx1]
    dsimp only
    rw [frameRecdMsgs_append]
    simp [frameRecdMsgs]

/-- Claim C6, witness: eight 0x41 bytes with `max_frame_size = 1` overflow
the buffer; the whole buffer is dropped with one error diagnostic. -/
theorem C6_oversize_witness :
    countError (mg_rpc_channel_uart_dispatcher (mg_rpc_channel_uart false false)
        (List.replicate 8 65) 0 1).2.1 = 1 ∧
    (mg_rpc_channel_uart_dispatcher (mg_rpc_channel_uart false false)
        (List.replicate 8 65) 0 1).1.recv_mbuf = [] ∧
    ((mg_rpc_channel_uart false false).connected = true →
      (mg_rpc_channel_uart_dispatcher (mg_rpc_channel_uart false false)
        (List.replicate 8 65) 0 1).1.connected = true) ∧
    frameRecdMsgs (mg_rpc_channel_uart_dispatcher (mg_rpc_channel_uart false false)
        (List.replicate 8 65) 0 1).2.1 =
      frameRecdMsgs (extractLoop (mg_rpc_channel_uart false false)
        ((mg_rpc_channel_uart false false).recv_mbuf ++ List.replicate 8 65)).2.2 :=
  C6_oversize_drop _ _ 0 1 (by decide) (by decide)

/-- Claim C7, counterexample: one send() that suspends the console
(resume_uart set) followed by two close() calls produces TWO console
resume calls, because close() resumes without clearing the flag — the
claim's "exactly once, never more over any later sequence of dispatch,
close, and connect operations" fails. -/
theorem C7_console_resume_counterexample :
    (let s1 := (mg_rpc_channel_uart_dispatcher
        (mg_rpc_channel_uart_ch_connect (mg_rpc_channel_uart true true))
        (hsRep 1) 7 0).1
     let r := mg_rpc_channel_uart_send_frame s1 [123, 125]
     r.1 = true ∧ r.2.resume_uart = true ∧
       countResume (runOps r.2 [Op.close, Op.close]).2 = 2) := by
  decide

/-- Claim C7 (amended): after a send() that suspended the console
(resume_uart = true), over every later sequence of dispatch and connect
operations that does not invoke close, the console resume call happens at
most once — exactly once iff the suspension flag has been cleared, which
only the dispatch cycle that drains the send buffer does. -/
theorem C7_console_resume_amended (s : ChannelState) (ops : List Op)
    (hcl : Op.close ∉ ops) (hr : s.resume_uart = true) :
    countResume (runOps s ops).2 +
      (if (runOps s ops).1.resume_uart = true then 1 else 0) = 1 := by
  have h := runOps_resume ops s hcl
  rw [hr] at h
  simpa using h

/-- Claim C7, witness: a single dispatch with enough tx capacity drains the
queued frame and resumes the console exactly once. -/
theorem C7_console_resume_witness :
    countResume (runOps
        { wait_for_start_frame := false, waiting_for_start_frame := false,
          connected := true, sending := true, sending_user_frame := true,
          resume_uart := true, recv_mbuf := [],
          send_mbuf := encode_frame [123, 125], console_uart := true }
        [Op.dispatch [] 50 0]).2 +
      (if (runOps
        { wait_for_start_frame := false, waiting_for_start_frame := false,
          connected := true, sending := true, sending_user_frame := true,
          resume_uart := true, recv_mbuf := [],
          send_mbuf := encode_frame [123, 125], console_uart := true }
        [Op.dispatch [] 50 0]).1.resume_uart = true then 1 else 0) = 1 :=
  C7_console_resume_amended _ [Op.dispatch [] 50 0] (by decide) (by decide)

/-- Claim C8, counterexample: the handshake reply emitted on the wire is 7
bytes (3-byte delimiter, 0x04, 3-byte delimiter), not 5 bytes as claimed. -/
theorem C8_handshake_reply_counterexample :
    (mg_rpc_channel_uart_dispatcher (mg_rpc_channel_uart false false)
        (hsRep 1) 7 0).2.2 = [34, 34, 34, 4, 34, 34, 34] ∧
    ¬ ((mg_rpc_channel_uart_dispatcher (mg_rpc_channel_uart false false)
        (hsRep 1) 7 0).2.2.length = 5) := by
  decide

/-- Claim C8 (amended): on any channel with empty buffers, receiving one
handshake frame with at least 7 bytes of tx capacity emits exactly the
byte sequence delimiter + 0x04 + delimiter on the wire, 7 bytes in total. -/
theorem C8_handshake_reply_amended (s : ChannelState) (cfg tx_av : Nat)
    (h1 : s.recv_mbuf = []) (h2 : s.send_mbuf = []) (h3 : 7 ≤ tx_av) :
    (mg_rpc_channel_uart_dispatcher s (hsRep 1) tx_av cfg).2.2 =
      FRAME_DELIMETER ++ [EOF_CHAR] ++ FRAME_DELIMETER ∧
    (mg_rpc_channel_uart_dispatcher s (hsRep 1) tx_av cfg).2.2.length = 7 := by
  have h7 : (hsRep 1).length = 7 := by decide
  have hext : (extractLoop s (hsRep 1)).1.sending = true ∧
      (extractLoop s (hsRep 1)).1.send_mbuf = hsRep 1 := by
    cases hc : s.connected with
    | false =>
      rw [extractLoop_hsRep_open s 0 hc]
      refine ⟨rfl, ?_⟩
      dsimp only
      rw [h2, List.nil_append]
    | true =>
      rw [extractLoop_eq_fuel _ _ 7 (by rw [h7]),
          extractLoopFuel_hsRep 1 7 s (by omega) hc]
      rw [if_neg one_ne_zero]
      refine ⟨rfl, ?_⟩
      dsimp only
      rw [h2, List.nil_append]
  have hsend : (dispatchRx s (hsRep 1) cfg).1.sending = true ∧
      (dispatchRx s (hsRep 1) cfg).1.send_mbuf = hsRep 1 := by
    unfold dispatchRx
    rw [if_pos (show 0 < (hsRep 1).length by rw [h7]; omega)]
    dsimp only
    rw [h1, List.nil_append]
    exact ⟨hext.1, hext.2⟩
  unfold mg_rpc_channel_uart_dispatcher dispatchTx
  dsimp only
  rw [if_pos (show (dispatchRx s (hsRep 1) cfg).1.sending = true ∧ 0 < tx_av from
        ⟨hsend.1, by omega⟩)]
  rw [hsend.2]
  have hmin : min (hsRep 1).length tx_av = (hsRep 1).length :=
    Nat.min_eq_left (by rw [h7]; exact h3)
  rw [hmin, List.take_length, List.drop_length]
  rw [if_pos (show ([] : List Nat).length = 0 from rfl)]
  constructor
  · show hsRep 1 = FRAME_DELIMETER ++ [EOF_CHAR] ++ FRAME_DELIMETER
    decide
  · show (hsRep 1).length = 7
    decide

/-- Claim C8, witness: the 7-byte reply on a fresh channel. -/
theorem C8_handshake_reply_witness :
    (mg_rpc_channel_uart_dispatcher (mg_rpc_channel_uart true false)
        (hsRep 1) 9 3).2.2 =
      FRAME_DELIMETER ++ [EOF_CHAR] ++ FRAME_DELIMETER ∧
    (mg_rpc_channel_uart_dispatcher (mg_rpc_channel_uart true false)
        (hsRep 1) 9 3).2.2.length = 7 :=
  C8_handshake_reply_amended _ 3 9 (by decide) (by decide) (by decide)

/-- Claim C9, counterexample: the send buffer CAN hold two outgoing frames
at once.  On a connected channel with a queued, undrained handshake reply
(sending still true), a further received handshake frame makes the
dispatcher append a second 7-byte reply behind the first one. -/
theorem C9_single_frame_counterexample :
    (let s0 := mg_rpc_channel_uart_ch_connect (mg_rpc_channel_uart true false)
     let s1 := (mg_rpc_channel_uart_dispatcher s0 (hsRep 1) 0 0).1
     let s2 := (mg_rpc_channel_uart_dispatcher s1 (hsRep 1) 0 0).1
     s1.sending = true ∧ s1.send_mbuf = hsRep 1 ∧
       s2.send_mbuf = hsRep 1 ++ hsRep 1) := by
  decide

/-- Claim C9 (amended): at most one USER frame is ever in flight: while a
send is in progress (`sending = true`), a further send_frame call is
refused and appends nothing; only the dispatcher's auto-generated
handshake replies can be appended behind an undrained frame. -/
theorem C9_single_frame_amended (s : ChannelState) (f : List Nat)
    (h : s.sending = true) :
    mg_rpc_channel_uart_send_frame s f = (false, s) := by
  unfold mg_rpc_channel_uart_send_frame
  rw [if_pos (Or.inr h)]

/-- Claim C9, witness: send while a handshake reply is still being
transmitted is refused with no state change. -/
theorem C9_single_frame_witness :
    mg_rpc_channel_uart_send_frame
      (mg_rpc_channel_uart_dispatcher
        (mg_rpc_channel_uart_ch_connect (mg_rpc_channel_uart true false))
        (hsRep 1) 0 0).1 [123, 125] =
      (false,
        (mg_rpc_channel_uart_dispatcher
          (mg_rpc_channel_uart_ch_connect (mg_rpc_channel_uart true false))
          (hsRep 1) 0 0).1) :=
  C9_single_frame_amended _ _ (by decide)

theorem mem_frameRecdMsgs (evs : List Event) (msg : List Nat) :
    msg ∈ frameRecdMsgs evs ↔ Event.frameRecd msg ∈ evs := by
  induction evs with
  | nil => simp [frameRecdMsgs]
  | cons e rest ih =>
    cases e <;> simp [frameRecdMsgs, ih]

theorem dispatchRx_recd (s : ChannelState) (rx : List Nat) (cfg : Nat)
    (msg : List Nat) (h : Event.frameRecd msg ∈ (dispatchRx s rx cfg).2) :
    msg ≠ [] := by
  unfold dispatchRx at h
  by_cases hp : 0 < rx.length
  · rw [if_pos hp] at h
    dsimp only at h
    rw [List.mem_append] at h
    cases h with
    | inl h1 => exact extractLoopFuel_recd _ _ _ _ h1
    | inr h2 => split_ifs at h2 <;> simp at h2
  · rw [if_neg hp] at h
    simp at h

theorem stepOp_recd (s : ChannelState) (op : Op) (msg : List Nat)
    (h : Event.frameRecd msg ∈ (stepOp s op).2) : msg ≠ [] := by
  cases op with
  | dispatch rx tx m =>
    unfold stepOp mg_rpc_channel_uart_dispatcher at h
    dsimp only at h
    rw [List.mem_append] at h
    cases h with
    | inl h1 => exact dispatchRx_recd _ _ _ _ h1
    | inr h2 =>
      rw [← mem_frameRecdMsgs, (dispatchTx_misc _ _).2.2.2] at h2
      simp at h2
  | close =>
    unfold stepOp mg_rpc_channel_uart_ch_close at h
    dsimp only at h
    rw [List.mem_append] at h
    cases h with
    | inl h1 => split_ifs at h1 <;> simp at h1
    | inr h2 => simp at h2
  | connect =>
    unfold stepOp at h
    simp at h

/-- Claim C10 (confirmed): over any sequence of dispatch, close and connect
operations from any state, every frame-received event carries a non-empty
message: empty spans between delimiters, checksum mismatches and frames
whose metadata scan consumed the whole payload are all silently skipped. -/
theorem C10_nonempty_delivery (s : ChannelState) (ops : List Op)
    (msg : List Nat) (h : Event.frameRecd msg ∈ (runOps s ops).2) : msg ≠ [] := by
  induction ops generalizing s with
  | nil => simp [runOps] at h
  | cons op rest ih =>
    unfold runOps at h
    dsimp only at h
    rw [List.mem_append] at h
    cases h with
    | inl h1 => exact stepOp_recd _ _ _ h1
    | inr h2 => exact ih _ h2

/-- Claim C10, witness: the frame delivered for a well-formed encoded
payload is non-empty. -/
theorem C10_nonempty_delivery_witness : ([123, 125] : List Nat) ≠ [] :=
  C10_nonempty_delivery (mg_rpc_channel_uart false false)
    [Op.dispatch (encode_frame [123, 125]) 0 0] [123, 125] (by decide)
